import Mathlib

/-!
Shallow embedding of `vidscraper/suites/base.py` and verification of the
frozen claims about it.

The embedding covers:

* the field-resolution planner `BaseSuite.load_video_data` (together with
  `BaseSuite._run_methods`, `BaseSuite.apply_video_data`,
  `ScrapedVideo.missing_fields` and `ScrapedVideo.load`),
* the registry lookups `SuiteRegistry.suite_for_video_url` /
  `suite_for_feed_url` and the classifiers `BaseSuite.handles_video_url` /
  `handles_feed_url`,
* the pagination loop `BaseScrapedVideoIterator.__iter__` together with the
  first-response metadata handling of `ScrapedFeed.handle_first_response`,
* the Python-level call and attribute semantics needed for
  `ScrapedFeed.__init__` (assignment to a getter-only property) and
  `BaseSuite.get_video` (keyword argument binding against
  `ScrapedVideo.__init__`).

Network fetches and response parsing are abstracted as pure oracles
(`net`, `page`, `materialize` below): the suites' regexes, HTTP and XML
machinery are external collaborators of the core under verification.
-/

namespace Vidscraper

/-- The Python exceptions that the modelled code can raise.  `nameError` is
the lookup failure for an undefined name, `typeError` the rejection of a bad
call, `attributeError` the rejection of an assignment to a getter-only
property, `notImplementedError` the "capability unsupported" signal, and
`cantIdentifyUrl` the library's `CantIdentifyUrl` error. -/
inductive PyErr where
  | nameError
  | typeError
  | attributeError
  | notImplementedError
  | cantIdentifyUrl
deriving DecidableEq, Repr

/-! ## Suites and the field-resolution planner -/

/-- One of the three data-acquisition strategies of a suite. -/
inductive Strategy where
  | oembed
  | api
  | scrape
deriving DecidableEq, Repr

/-- A combination of strategies, in the order they are run
(`methods` in `load_video_data`). -/
abbrev Combo := List Strategy

/-- A suite, at the capability level the core consumes: the three per-strategy
coverage sets (the values of the `oembed_fields`, `api_fields` and
`scrape_fields` properties, as declared or overridden by the suite) and the
two URL classifiers.  `video_regex` / `feed_regex` are `none` when the class
attribute is `None`, and otherwise the (abstracted) regex-match predicate. -/
structure Suite where
  oembed_fields : Finset String
  api_fields : Finset String
  scrape_fields : Finset String
  video_regex : Option (String → Bool)
  feed_regex : Option (String → Bool)

/-- `getattr(self, "%s_fields" % method)`. -/
def methodFields (s : Suite) : Strategy → Finset String
  | .oembed => s.oembed_fields
  | .api => s.api_fields
  | .scrape => s.scrape_fields

/-- The literal list of the seven candidate strategy combinations from
`load_video_data`, in its source order: singles, then pairs, then all
three. -/
def combos : List Combo :=
  [[.oembed], [.api], [.scrape],
   [.oembed, .api], [.oembed, .scrape], [.api, .scrape],
   [.oembed, .api, .scrape]]

/-- `field_set = set(); for method in methods: field_set |= ...` -/
def comboFields (s : Suite) (c : Combo) : Finset String :=
  c.foldl (fun acc m => acc ∪ methodFields s m) ∅

/-- `remaining = len(missing_fields - field_set)` for a candidate
combination. -/
def remainingCount (s : Suite) (missing : Finset String) (c : Combo) : Nat :=
  (missing \ comboFields s c).card

/-- The `remaining_dict` of `load_video_data`: a Python dict from a remaining
count to the list of combinations appended under that key, modelled as an
association list in key-insertion order. -/
abbrev RemDict := List (Nat × List Combo)

/-- Dict lookup (`remaining_dict[i]`, and the `i in remaining_dict` test via
`Option.isSome`). -/
def dictFind : RemDict → Nat → Option (List Combo)
  | [], _ => none
  | (k, v) :: rest, i => if k = i then some v else dictFind rest i

/-- `remaining_dict.setdefault(remaining, []).append(methods)`. -/
def dictAppend : RemDict → Nat → Combo → RemDict
  | [], k, c => [(k, [c])]
  | (k2, v) :: rest, k, c =>
      if k2 = k then (k2, v ++ [c]) :: rest else (k2, v) :: dictAppend rest k c

/-- The selection logic of `load_video_data`, returning the combination whose
methods get run (`none` when no method is run).  The first phase walks the
seven candidate combinations in order: an exact fit (`remaining == 0`) is
taken immediately, and a combination that strictly reduces the number of
missing fields is recorded in `remaining_dict`.  The second phase
(`for i in xrange(len(missing_fields))`) runs the first entry of the
best-performing slot, if any.  Execution itself is pure state threading and
is factored out into `run_methods`. -/
def selectLoop (s : Suite) (missing : Finset String) :
    List Combo → RemDict → Option Combo
  | [], d =>
      (List.range missing.card).findSome? fun i => (dictFind d i).bind List.head?
  | c :: rest, d =>
      if remainingCount s missing c = 0 then some c
      else if remainingCount s missing c < missing.card then
        selectLoop s missing rest (dictAppend d (remainingCount s missing c) c)
      else selectLoop s missing rest d

/-! ## Video records -/

/-- A `ScrapedVideo` record, for the purposes of field resolution: the list of
requested fields (`self.fields`) and the current attribute values, `none`
meaning unset.  The metadata values themselves are opaque (`α`). -/
structure Video (α : Type) where
  fields : List String
  attrs : String → Option α

/-- `ScrapedVideo.missing_fields`:
`[f for f in self.fields if getattr(self, f) is None]`. -/
def missing_fields {α : Type} (v : Video α) : List String :=
  v.fields.filter fun f => (v.attrs f).isNone

/-- The missing-field *set* (`set(video.missing_fields)`) used by the
planner. -/
def missingSet {α : Type} (v : Video α) : Finset String :=
  (missing_fields v).toFinset

/-- `setattr(video, field, value)`. -/
def setattr {α : Type} (v : Video α) (f : String) (x : α) : Video α :=
  { v with attrs := fun g => if g = f then some x else v.attrs g }

/-- One step of `apply_video_data`:
`if (field in video.fields and getattr(video, field) is None): setattr(...)`,
with the two conditions checked in the source's short-circuit order. -/
def applyField {α : Type} (w : Video α) (p : String × α) : Video α :=
  if p.1 ∈ w.fields then
    match w.attrs p.1 with
    | none => setattr w p.1 p.2
    | some _ => w
  else w

/-- `BaseSuite.apply_video_data`: store each `(field, value)` pair of the
parsed data on the video, but only if the field was requested and is still
unset. -/
def apply_video_data {α : Type} (v : Video α) (data : List (String × α)) :
    Video α :=
  data.foldl applyField v

/-- `BaseSuite._run_methods`: for each method of a combination, fetch its URL
and parse the response (abstracted as the oracle `net`, one blocking fetch per
method), then merge with `apply_video_data`. -/
def run_methods {α : Type} (net : Strategy → List (String × α)) (v : Video α)
    (c : Combo) : Video α :=
  c.foldl (fun w m => apply_video_data w (net m)) v

/-- `BaseSuite.load_video_data`.  Returns the updated video together with the
combination of methods that was executed (`none` when the missing-field set is
empty or no combination improves on doing nothing; each executed method is
exactly one network fetch). -/
def load_video_data {α : Type} (s : Suite) (net : Strategy → List (String × α))
    (v : Video α) : Video α × Option Combo :=
  if missingSet v = ∅ then (v, none)
  else
    match selectLoop s (missingSet v) combos [] with
    | some c => (run_methods net v c, some c)
    | none => (v, none)

/-- A `ScrapedVideo` together with its private `_loaded` flag. -/
structure VideoState (α : Type) where
  video : Video α
  loaded : Bool

/-- `ScrapedVideo.load`: run `load_video_data` unless `_loaded` is already
set, then set it.  Also returns the combination of methods executed. -/
def load {α : Type} (s : Suite) (net : Strategy → List (String × α))
    (vs : VideoState α) : VideoState α × Option Combo :=
  if vs.loaded then (vs, none)
  else
    let r := load_video_data s net vs.video
    (⟨r.1, true⟩, r.2)

/-- `some l` when `l` is non-empty, `none` otherwise (helper for describing
`remaining_dict` buckets). -/
def optOfList {α : Type} : List α → Option (List α)
  | [] => none
  | a :: l => some (a :: l)

/-- `[j, j+1, ..., j+m-1]`, a cons-structured view of `List.range` used to
reason about the planner's second phase. -/
def rangeFrom : Nat → Nat → List Nat
  | _, 0 => []
  | j, Nat.succ m => j :: rangeFrom (j + 1) m

/-- Spec-side characterisation of the planner's choice, written from the
claim's words: among the seven combinations that strictly reduce the missing
count, the one with the minimal remaining-uncovered count, ties broken by the
fixed priority order (i.e. the first such element of `combos`); `none` when no
combination strictly reduces the missing count. -/
def chooseOn {α : Type} (rem : α → Nat) (m : Nat) (l : List α) : Option α :=
  (l.filter fun c => decide (rem c < m)).find? fun c =>
    (l.filter fun c2 => decide (rem c2 < m)).all fun c2 => decide (rem c ≤ rem c2)

/-- Spec-side choice for a suite and a missing-field set. -/
def specChoice (s : Suite) (missing : Finset String) : Option Combo :=
  chooseOn (remainingCount s missing) missing.card combos

/-! ## URL classifiers and the suite registry -/

/-- `BaseSuite.handles_video_url`: match the url against `video_regex`; when
`video_regex` is `None` the attribute access on `None` raises
`AttributeError`, which the method re-raises as `NotImplementedError`. -/
def handles_video_url (s : Suite) (url : String) : Except PyErr Bool :=
  match s.video_regex with
  | none => .error .notImplementedError
  | some p => .ok (p url)

/-- `BaseSuite.handles_feed_url` as written in the source: its body tests
`self.video_regex.match(url)` (base.py line 528), not `feed_regex` as its own
docstring states. -/
def handles_feed_url (s : Suite) (url : String) : Except PyErr Bool :=
  match s.video_regex with
  | none => .error .notImplementedError
  | some p => .ok (p url)

/-- `handles_feed_url` as its docstring and the spec describe it: match the
url against the suite's `feed_regex`. -/
def handles_feed_url_spec (s : Suite) (url : String) : Except PyErr Bool :=
  match s.feed_regex with
  | none => .error .notImplementedError
  | some p => .ok (p url)

/-- Whether a suite claims a url as a video (classifier declared and
matching). -/
def claimsVideo (s : Suite) (url : String) : Bool :=
  match handles_video_url s url with
  | .ok true => true
  | _ => false

/-- Whether a suite claims a url as a feed, per the source's
`handles_feed_url`. -/
def claimsFeed (s : Suite) (url : String) : Bool :=
  match handles_feed_url s url with
  | .ok true => true
  | _ => false

/-- `SuiteRegistry.suite_for_video_url`: scan the registered suites in
registration order; return the first whose classifier claims the url;
a `NotImplementedError` from a classifier is swallowed (`except ... pass`);
`none` models raising `CantIdentifyUrl`.  No fetch exists on this path: the
classifiers are pure. -/
def suite_for_video_url : List Suite → String → Option Suite
  | [], _ => none
  | s :: rest, url =>
      match handles_video_url s url with
      | .ok true => some s
      | .ok false => suite_for_video_url rest url
      | .error _ => suite_for_video_url rest url

/-- `SuiteRegistry.suite_for_feed_url`, same scan with the feed classifier. -/
def suite_for_feed_url : List Suite → String → Option Suite
  | [], _ => none
  | s :: rest, url =>
      match handles_feed_url s url with
      | .ok true => some s
      | .ok false => suite_for_feed_url rest url
      | .error _ => suite_for_feed_url rest url

/-! ## `ScrapedFeed.__init__` and the read-only `max_results` property -/

/-- Assignment of an instance attribute on a `ScrapedFeed`.  The class (via
`BaseScrapedVideoIterator`) defines `max_results` as a property with a getter
only, so CPython raises `AttributeError` for `self.max_results = ...`; every
other name assigned by `__init__` is a plain attribute.  The object is
abstracted as the list of attribute names assigned so far (the values play no
role in the claim). -/
def feedSetAttr (obj : List String) (name : String) :
    Except PyErr (List String) :=
  if name = "max_results" then .error .attributeError
  else .ok (obj ++ [name])

/-- The suite-resolution step of `ScrapedFeed.__init__`: when no suite is
passed, look one up in the registry (raising `CantIdentifyUrl` when none
claims the url); when a suite is passed, check `handles_feed_url`, raising
`CantIdentifyUrl` when it answers false and propagating its
`NotImplementedError` otherwise. -/
def resolveFeedSuite (suites : List Suite) (suiteArg : Option Suite)
    (url : String) : Except PyErr Suite :=
  match suiteArg with
  | none =>
      match suite_for_feed_url suites url with
      | some s => .ok s
      | none => .error .cantIdentifyUrl
  | some s =>
      match handles_feed_url s url with
      | .error e => .error e
      | .ok true => .ok s
      | .ok false => .error .cantIdentifyUrl

/-- `ScrapedFeed.__init__`, as the sequence of attribute assignments it
performs, in source order, with the suite resolution in between.  The first
error aborts construction.  No network fetch occurs anywhere on this path
(the registry lookup is classifier-only). -/
def scrapedFeedInit (suites : List Suite) (suiteArg : Option Suite)
    (url : String) : Except PyErr (List String) :=
  (feedSetAttr [] "url").bind fun obj =>
  (resolveFeedSuite suites suiteArg url).bind fun _ =>
  (feedSetAttr obj "suite").bind fun obj =>
  (feedSetAttr obj "fields").bind fun obj =>
  (feedSetAttr obj "crawl").bind fun obj =>
  (feedSetAttr obj "max_results").bind fun obj =>
  (feedSetAttr obj "api_keys").bind fun obj =>
  (feedSetAttr obj "last_modified").bind fun obj =>
  (feedSetAttr obj "etag").bind fun obj =>
  (feedSetAttr obj "_first_response_fetched").bind fun obj =>
  (feedSetAttr obj "entry_count").bind fun obj =>
  (feedSetAttr obj "description").bind fun obj =>
  (feedSetAttr obj "webpage").bind fun obj =>
  (feedSetAttr obj "title").bind fun obj =>
  (feedSetAttr obj "guid").bind fun obj =>
  .ok obj

/-! ## `BaseSuite.get_video` and Python keyword binding -/

/-- The parameters of `ScrapedVideo.__init__` after `self`, in order:
`url`, `suite`, `fields`, `api_keys`.  There is no `**kwargs`. -/
def scrapedVideoInitParams : List String := ["url", "suite", "fields", "api_keys"]

/-- The keyword arguments `BaseSuite.get_video` passes to the `ScrapedVideo`
constructor: `ScrapedVideo(url, suite=self, fields=fields, api_key=api_key)`. -/
def getVideoKeywords : List String := ["suite", "fields", "api_key"]

/-- CPython call binding, to the extent this call exercises it: `npos`
positional arguments bind the first `npos` parameters; each keyword argument
must name a parameter that is not already positionally bound, otherwise the
call raises `TypeError` (there is no `**kwargs` to absorb extras). -/
def bindCall (params : List String) (npos : Nat) (kwargs : List String) :
    Except PyErr Unit :=
  if params.length < npos then .error .typeError
  else if kwargs.any (fun k => (params.take npos).contains k || !params.contains k)
  then .error .typeError
  else .ok ()

/-- The item-materialisation step of the iterator body:
`data = self.get_item_data(item)` (abstracted as the total oracle
`getItemData`), then `video = self.suite.get_video(data['link'], self.fields,
self.api_keys)` — a call that forwards the keyword `api_key` to
`ScrapedVideo.__init__` — then `apply_video_data`.  `construct` stands for
the video that the construction and merge would produce if the call bound
successfully. -/
def get_video_materialize {Item V : Type}
    (getItemData : Item → List (String × String)) (construct : Item → V)
    (item : Item) : Except PyErr V :=
  let _data := getItemData item
  match bindCall scrapedVideoInitParams 1 getVideoKeywords with
  | .error e => .error e
  | .ok _ => .ok (construct item)

/-! ## The pagination loop `BaseScrapedVideoIterator.__iter__` -/

/-- One page response, as the iterator consumes it: its item list
(`get_response_items`), the next-page url the suite would compute for it
(`get_next_url`, `none` when the suite reports no further page), and the
side-channel metadata `handle_first_response` would extract from it (for a
feed: title, entry count, description, webpage, guid, last-modified, etag —
bundled as one opaque `Meta` value). -/
structure Page (Item Meta : Type) where
  items : List Item
  nextUrl : Option Nat
  meta : Meta

/-- An iterator instance: its first url (`get_first_url`), the pure fetch
oracle `page` (urls are abstracted as `Nat`), the per-item materialisation
`materialize` (which may raise), and the `crawl` / `max_results`
configuration. -/
structure IterEnv (Item V Meta : Type) where
  firstUrl : Nat
  page : Nat → Page Item Meta
  materialize : Item → Except PyErr V
  crawl : Bool
  max_results : Option Nat

/-- How the loop over one page's items ended: normally (the `for`'s `else`
clause runs), by the `break` after the cap check, or by an exception from
materialising an item. -/
inductive ForExit where
  | completed
  | capBreak
  | raised (e : PyErr)
deriving DecidableEq, Repr

/-- How the whole iteration ended: `finished` is `StopIteration` (normal
exhaustion, including a swallowed `NotImplementedError`), `raised e` an
uncaught exception propagating to the consumer, `fuelOut` the artificial
page bound of the model. -/
inductive StopReason where
  | finished
  | raised (e : PyErr)
  | fuelOut
deriving DecidableEq, Repr

/-- The observable outcome of an iteration: pages fetched in order, videos
yielded in order, the pages whose response was passed to
`handle_first_response`, the final value of the side-channel metadata, and
how the iteration stopped. -/
structure IterTrace (V Meta : Type) where
  fetched : List Nat
  emitted : List V
  metaEvents : List Nat
  finalMeta : Option Meta
  stop : StopReason
deriving Repr

/-- The loop condition
`while self._max_results is None or result_count < self._max_results:`.
When `_max_results` is `None` the `or` short-circuits to true; otherwise the
right operand reads `result_count`, a name that is never defined (the counter
initialised and incremented by the loop is `item_count`), so evaluating the
condition raises `NameError`. -/
def whileCond (max_results : Option Nat) : Except PyErr Bool :=
  match max_results with
  | none => .ok true
  | some _ => .error .nameError

/-- The `for item in items:` body: materialise and yield each item in page
order; after each yield, if `max_results` is set, increment `item_count` and
`break` once it reaches the cap.  Returns the videos yielded from this page,
the updated counter, and how the loop ended. -/
def emitItems {Item V Meta : Type} (env : IterEnv Item V Meta) :
    List Item → Nat → List V × Nat × ForExit
  | [], count => ([], count, .completed)
  | it :: rest, count =>
      match env.materialize it with
      | .error e => ([], count, .raised e)
      | .ok v =>
          match env.max_results with
          | none =>
              match emitItems env rest count with
              | (vs, c, ex) => (v :: vs, c, ex)
          | some n =>
              if n ≤ count + 1 then ([v], count + 1, .capBreak)
              else
                match emitItems env rest (count + 1) with
                | (vs, c, ex) => (v :: vs, c, ex)

/-- The list of `handle_first_response` invocations a page contributes:
`[url]` on the first response, `[]` afterwards. -/
def metaEvOf (firstFetched : Bool) (url : Nat) : List Nat :=
  if firstFetched then [] else [url]

/-- The metadata attributes after a page is handled: set from the page's
response by `handle_first_response` on the first response only, untouched
afterwards. -/
def meta2Of {Item Meta : Type} (page : Nat → Page Item Meta)
    (firstFetched : Bool) (url : Nat) (meta : Option Meta) : Option Meta :=
  if firstFetched then meta else some (page url).meta

/-- Prepend one page's observations to the trace of the continued
iteration. -/
def contTrace {V Meta : Type} (url : Nat) (vs : List V) (metaEv : List Nat)
    (t : IterTrace V Meta) : IterTrace V Meta :=
  ⟨url :: t.fetched, vs ++ t.emitted, metaEv ++ t.metaEvents,
    t.finalMeta, t.stop⟩

/-- The page loop of `__iter__`, fuelled by a bound on the number of loop
iterations.  Each iteration: evaluate the (buggy) `while` condition, fetch
the page, run `handle_first_response` if this is the first response, loop
over the items, then either re-enter the `while` (after a cap `break`) or run
the `for`'s `else` clause: continue to `get_next_url(response)` only when
`crawl` is enabled and the page was non-empty, and stop when no next url
results.  A raised `NotImplementedError` is swallowed by the `except` around
the whole body, ending the iteration normally. -/
def iterPages {Item V Meta : Type} (env : IterEnv Item V Meta) :
    Nat → Nat → Nat → Bool → Option Meta → IterTrace V Meta
  | 0, _, _, _, meta => ⟨[], [], [], meta, .fuelOut⟩
  | Nat.succ fuel, url, count, firstFetched, meta =>
      match whileCond env.max_results with
      | .error e => ⟨[], [], [], meta, .raised e⟩
      | .ok false => ⟨[], [], [], meta, .finished⟩
      | .ok true =>
          match emitItems env (env.page url).items count with
          | (vs, _, .raised e) =>
              ⟨[url], vs, metaEvOf firstFetched url,
                meta2Of env.page firstFetched url meta,
                if e = .notImplementedError then .finished else .raised e⟩
          | (vs, count2, .capBreak) =>
              match whileCond env.max_results with
              | .error e =>
                  ⟨[url], vs, metaEvOf firstFetched url,
                    meta2Of env.page firstFetched url meta, .raised e⟩
              | .ok false =>
                  ⟨[url], vs, metaEvOf firstFetched url,
                    meta2Of env.page firstFetched url meta, .finished⟩
              | .ok true =>
                  contTrace url vs (metaEvOf firstFetched url)
                    (iterPages env fuel url count2 true
                      (meta2Of env.page firstFetched url meta))
          | (vs, count2, .completed) =>
              match (if env.crawl && !(env.page url).items.isEmpty
                  then (env.page url).nextUrl else none) with
              | none =>
                  ⟨[url], vs, metaEvOf firstFetched url,
                    meta2Of env.page firstFetched url meta, .finished⟩
              | some u =>
                  contTrace url vs (metaEvOf firstFetched url)
                    (iterPages env fuel u count2 true
                      (meta2Of env.page firstFetched url meta))

/-- A full iteration from a fresh iterator: `url = self.get_first_url()`,
`item_count = 0`, first-response flag unset, metadata attributes unset. -/
def iterate {Item V Meta : Type} (env : IterEnv Item V Meta) (fuel : Nat) :
    IterTrace V Meta :=
  iterPages env fuel env.firstUrl 0 false none

/-! ## Concrete instances used by the witness theorems -/

/-- A suite supplying `title` over oembed and `description` over its API. -/
def sEx : Suite := ⟨{"title"}, {"description"}, ∅, none, none⟩

/-- A suite with a video regex that matches everything and no feed regex. -/
def sVid : Suite := ⟨∅, ∅, ∅, some fun _ => true, none⟩

/-- A suite with a feed regex that matches everything and no video regex. -/
def sFeedOnly : Suite := ⟨∅, ∅, ∅, none, some fun _ => true⟩

/-- A network oracle returning a fixed titled response for every strategy. -/
def netEx : Strategy → List (String × Nat) := fun _ => [("title", 1)]

/-- A fresh video requesting `title` and `description`. -/
def vEx : Video Nat := ⟨["title", "description"], fun _ => none⟩

/-- A video with no requested fields (nothing missing). -/
def vDone : Video Nat := ⟨[], fun _ => none⟩

/-- An unloaded video state over `vDone`. -/
def vsEx : VideoState Nat := ⟨vDone, false⟩

/-- Example parsed data for `apply_video_data`. -/
def dataEx : List (String × Nat) := [("title", 5), ("other", 6)]

/-- A two-item page at every url, each page linking to the next. -/
def pageEx : Nat → Page Nat Nat :=
  fun u => ⟨[u * 10 + 1, u * 10 + 2], some (u + 1), u⟩

/-- A crawling, uncapped iterator over `pageEx` whose items materialise
successfully. -/
def envOk : IterEnv Nat Nat Nat :=
  ⟨0, pageEx, fun i => .ok i, true, none⟩

/-- The same iterator with `max_results = 1`. -/
def envCap : IterEnv Nat Nat Nat :=
  ⟨0, pageEx, fun i => .ok i, true, some 1⟩

/-- A non-crawling, uncapped iterator whose items are materialised through
`BaseSuite.get_video` (the real call chain). -/
def envGetVideo : IterEnv Nat Nat Nat :=
  ⟨0, pageEx, get_video_materialize (fun _ => []) (fun i => i), false, none⟩

/-! ## List helper lemmas -/

lemma find?_congr_mem {α : Type} {l : List α} {f g : α → Bool}
    (h : ∀ x ∈ l, f x = g x) : l.find? f = l.find? g := by
  induction l with
  | nil => rfl
  | cons a t ih =>
      have ha := h a (List.mem_cons_self a t)
      by_cases hfa : f a = true
      · rw [List.find?_cons_of_pos _ hfa, List.find?_cons_of_pos _ (ha ▸ hfa)]
      · rw [List.find?_cons_of_neg _ hfa, List.find?_cons_of_neg _ (ha ▸ hfa)]
        exact ih fun x hx => h x (List.mem_cons_of_mem a hx)

lemma findSome?_congr_mem {α β : Type} {l : List α} {f g : α → Option β}
    (h : ∀ x ∈ l, f x = g x) : l.findSome? f = l.findSome? g := by
  induction l with
  | nil => rfl
  | cons a t ih =>
      rw [List.findSome?_cons, List.findSome?_cons, h a (List.mem_cons_self a t),
        ih fun x hx => h x (List.mem_cons_of_mem a hx)]

lemma find?_eq_head?_filter {α : Type} (l : List α) (f : α → Bool) :
    l.find? f = (l.filter f).head? := by
  induction l with
  | nil => rfl
  | cons a t ih =>
      rw [List.filter_cons]
      by_cases h : f a = true
      · rw [List.find?_cons_of_pos _ h, if_pos h]
        rfl
      · rw [List.find?_cons_of_neg _ h, if_neg h]
        exact ih

lemma optOfList_getD {α : Type} (l : List α) : (optOfList l).getD [] = l := by
  cases l <;> rfl

lemma optOfList_ne_nil {α : Type} (l : List α) (h : l ≠ []) :
    optOfList l = some l := by
  cases l with
  | nil => exact absurd rfl h
  | cons a t => rfl

lemma optOfList_bind_head? {α : Type} (l : List α) :
    (optOfList l).bind List.head? = l.head? := by
  cases l <;> rfl

lemma rangeFrom_snoc : ∀ (m j : Nat), rangeFrom j (m + 1) = rangeFrom j m ++ [j + m] := by
  intro m
  induction m with
  | zero => intro j; simp [rangeFrom]
  | succ m ih =>
      intro j
      show j :: rangeFrom (j + 1) (m + 1) = (j :: rangeFrom (j + 1) m) ++ [j + (m + 1)]
      rw [ih (j + 1)]
      have harith : j + 1 + m = j + (m + 1) := by omega
      rw [harith, List.cons_append]

lemma range_eq_rangeFrom (m : Nat) : List.range m = rangeFrom 0 m := by
  induction m with
  | zero => rfl
  | succ m ih =>
      rw [List.range_succ, ih, rangeFrom_snoc]
      rw [Nat.zero_add]

/-! ## Planner dict lemmas -/

lemma dictFind_append_self (d : RemDict) (k : Nat) (c : Combo) :
    dictFind (dictAppend d k c) k = some ((dictFind d k).getD [] ++ [c]) := by
  induction d with
  | nil => simp [dictAppend, dictFind]
  | cons p rest ih =>
      obtain ⟨k2, v⟩ := p
      by_cases h : k2 = k
      · subst h
        simp [dictAppend, dictFind]
      · simp only [dictAppend, dictFind, if_neg h]
        exact ih

lemma dictFind_append_ne (d : RemDict) (k : Nat) (c : Combo) (i : Nat)
    (h : i ≠ k) : dictFind (dictAppend d k c) i = dictFind d i := by
  induction d with
  | nil => simp [dictAppend, dictFind, Ne.symm h]
  | cons p rest ih =>
      obtain ⟨k2, v⟩ := p
      by_cases h2 : k2 = k
      · subst h2
        have : ¬ k2 = i := fun hh => h (hh ▸ rfl)
        simp [dictAppend, dictFind, this]
      · by_cases h3 : k2 = i
        · subst h3
          simp [dictAppend, dictFind, h2]
        · simp only [dictAppend, dictFind, if_neg h2, if_neg h3]
          exact ih

/-! ## Characterisation of the planner's selection -/

lemma chooseOn_min {α : Type} (rem : α → Nat) (m k : Nat) (l : List α)
    (hk : k < m) (c0 : α) (hc0 : c0 ∈ l) (hrc0 : rem c0 = k)
    (hlow : ∀ x ∈ l, rem x < m → k ≤ rem x) :
    chooseOn rem m l = l.find? fun c => decide (rem c = k) := by
  unfold chooseOn
  have hc0F : c0 ∈ l.filter fun c => decide (rem c < m) :=
    List.mem_filter.mpr ⟨hc0, by simp [hrc0, hk]⟩
  have step1 : ∀ x ∈ l.filter fun c => decide (rem c < m),
      ((l.filter fun c2 => decide (rem c2 < m)).all fun c2 =>
          decide (rem x ≤ rem c2)) = decide (rem x = k) := by
    intro x hx
    obtain ⟨hxl, hxm⟩ := List.mem_filter.mp hx
    rw [Bool.eq_iff_iff, List.all_eq_true]
    simp only [decide_eq_true_eq]
    constructor
    · intro hall
      have h1 := hall c0 hc0F
      have h2 := hlow x hxl (by simpa using hxm)
      omega
    · intro hxk y hy
      obtain ⟨hyl, hym⟩ := List.mem_filter.mp hy
      have := hlow y hyl (by simpa using hym)
      omega
  rw [find?_congr_mem step1, List.find?_filter]
  apply find?_congr_mem
  intro x _
  by_cases h : rem x = k
  · simp [h, hk]
  · simp [h]

lemma findSome?_rangeFrom_chooseOn {α : Type} (rem : α → Nat) (p : List α) :
    ∀ (m j : Nat), (∀ x ∈ p, j ≤ rem x) →
      (rangeFrom j m).findSome?
          (fun i => (p.filter fun c => decide (rem c = i)).head?) =
        chooseOn rem (j + m) p := by
  intro m
  induction m with
  | zero =>
      intro j hj
      have hfil : (p.filter fun c => decide (rem c < j + 0)) = [] := by
        rw [List.filter_eq_nil_iff]
        intro a ha
        have := hj a ha
        simp
        omega
      show List.findSome? _ [] = chooseOn rem (j + 0) p
      unfold chooseOn
      rw [hfil]
      rfl
  | succ m ih =>
      intro j hj
      show List.findSome? _ (j :: rangeFrom (j + 1) m) = _
      rw [List.findSome?_cons]
      cases hf : (p.filter fun c => decide (rem c = j)).head? with
      | none =>
          have hemp : (p.filter fun c => decide (rem c = j)) = [] := by
            cases hc : p.filter fun c => decide (rem c = j) with
            | nil => rfl
            | cons a t =>
                rw [hc] at hf
                exact absurd hf (by simp)
          have hj2 : ∀ x ∈ p, j + 1 ≤ rem x := by
            intro x hx
            have h1 := hj x hx
            have h2 : ¬ rem x = j := by
              intro hcontra
              have hmem : x ∈ p.filter fun c => decide (rem c = j) :=
                List.mem_filter.mpr ⟨hx, by simp [hcontra]⟩
              rw [hemp] at hmem
              exact absurd hmem (List.not_mem_nil x)
            omega
          have harith : j + 1 + m = j + (m + 1) := by omega
          rw [ih (j + 1) hj2, harith]
      | some c =>
          have hcmem : c ∈ p.filter fun x => decide (rem x = j) := by
            cases hc : p.filter fun x => decide (rem x = j) with
            | nil =>
                rw [hc] at hf
                exact absurd hf (by simp)
            | cons a t =>
                rw [hc] at hf
                have : a = c := by
                  simpa using hf
                rw [← this]
                exact List.mem_cons_self a t
          obtain ⟨hcl, hcj⟩ := List.mem_filter.mp hcmem
          have hrcj : rem c = j := by simpa using hcj
          rw [chooseOn_min rem (j + (m + 1)) j p (by omega) c hcl hrcj
            (fun x hx _ => hj x hx)]
          rw [find?_eq_head?_filter, hf]

lemma selectLoop_eq_chooseOn (s : Suite) (missing : Finset String)
    (hm : 0 < missing.card) :
    ∀ (cs p : List Combo) (d : RemDict),
      (∀ i, i < missing.card →
        dictFind d i =
          optOfList (p.filter fun c => decide (remainingCount s missing c = i))) →
      (∀ c ∈ p, remainingCount s missing c ≠ 0) →
      selectLoop s missing cs d =
        chooseOn (remainingCount s missing) missing.card (p ++ cs) := by
  intro cs
  induction cs with
  | nil =>
      intro p d hinv hp0
      show (List.range missing.card).findSome? _ = _
      rw [range_eq_rangeFrom]
      have hcong : ∀ i ∈ rangeFrom 0 missing.card,
          (dictFind d i).bind List.head? =
            (p.filter fun c => decide (remainingCount s missing c = i)).head? := by
        intro i hi
        have hilt : i < missing.card := by
          rw [← range_eq_rangeFrom] at hi
          exact List.mem_range.mp hi
        rw [hinv i hilt, optOfList_bind_head?]
      rw [findSome?_congr_mem hcong,
        findSome?_rangeFrom_chooseOn (remainingCount s missing) p missing.card 0
          (by intro x _; omega),
        Nat.zero_add, List.append_nil]
  | cons c rest ih =>
      intro p d hinv hp0
      show (if remainingCount s missing c = 0 then some c
            else if remainingCount s missing c < missing.card then
              selectLoop s missing rest (dictAppend d (remainingCount s missing c) c)
            else selectLoop s missing rest d) = _
      by_cases h0 : remainingCount s missing c = 0
      · rw [if_pos h0,
          chooseOn_min (remainingCount s missing) missing.card 0 (p ++ c :: rest)
            hm c (by simp) h0 (by intro x _ _; omega),
          List.find?_append,
          List.find?_eq_none.mpr (by intro x hx; simp [hp0 x hx]),
          List.find?_cons_of_pos _ (by simp [h0])]
        rfl
      · rw [if_neg h0]
        by_cases hlt : remainingCount s missing c < missing.card
        · rw [if_pos hlt]
          have hinv2 : ∀ i, i < missing.card →
              dictFind (dictAppend d (remainingCount s missing c) c) i =
                optOfList ((p ++ [c]).filter fun x =>
                  decide (remainingCount s missing x = i)) := by
            intro i hi
            by_cases hic : i = remainingCount s missing c
            · subst hic
              rw [dictFind_append_self, hinv _ hi, optOfList_getD,
                List.filter_append]
              have hone : ([c].filter fun x =>
                  decide (remainingCount s missing x =
                    remainingCount s missing c)) = [c] := by
                simp
              rw [hone]
              exact (optOfList_ne_nil _ (by simp)).symm
            · rw [dictFind_append_ne _ _ _ _ hic, hinv _ hi, List.filter_append]
              have hone : ([c].filter fun x =>
                  decide (remainingCount s missing x = i)) = [] := by
                rw [List.filter_eq_nil_iff]
                intro a ha
                rw [List.mem_singleton] at ha
                subst ha
                simp only [decide_eq_true_eq]
                intro hh
                omega
              rw [hone, List.append_nil]
          have hp02 : ∀ x ∈ p ++ [c], remainingCount s missing x ≠ 0 := by
            intro x hx
            rcases List.mem_append.mp hx with h | h
            · exact hp0 x h
            · simp at h
              subst h
              exact h0
          rw [ih (p ++ [c]) _ hinv2 hp02]
          congr 1
          simp
        · rw [if_neg hlt]
          have hinv2 : ∀ i, i < missing.card →
              dictFind d i =
                optOfList ((p ++ [c]).filter fun x =>
                  decide (remainingCount s missing x = i)) := by
            intro i hi
            rw [hinv _ hi, List.filter_append]
            have hone : ([c].filter fun x =>
                decide (remainingCount s missing x = i)) = [] := by
              rw [List.filter_eq_nil_iff]
              intro a ha
              rw [List.mem_singleton] at ha
              subst ha
              simp only [decide_eq_true_eq]
              intro hh
              omega
            rw [hone, List.append_nil]
          have hp02 : ∀ x ∈ p ++ [c], remainingCount s missing x ≠ 0 := by
            intro x hx
            rcases List.mem_append.mp hx with h | h
            · exact hp0 x h
            · simp at h
              subst h
              exact h0
          rw [ih (p ++ [c]) _ hinv2 hp02]
          congr 1
          simp

/-! ## Facts about `apply_video_data` -/

lemma setattr_fields {α : Type} (v : Video α) (f : String) (x : α) :
    (setattr v f x).fields = v.fields := rfl

lemma applyField_fields {α : Type} (w : Video α) (p : String × α) :
    (applyField w p).fields = w.fields := by
  unfold applyField
  by_cases h : p.1 ∈ w.fields
  · rw [if_pos h]
    cases ha : w.attrs p.1 <;> rfl
  · rw [if_neg h]

lemma applyField_attrs_ne {α : Type} (w : Video α) (p : String × α)
    (g : String) (h : g ≠ p.1) : (applyField w p).attrs g = w.attrs g := by
  unfold applyField
  by_cases hmem : p.1 ∈ w.fields
  · rw [if_pos hmem]
    cases ha : w.attrs p.1
    · show (setattr w p.1 p.2).attrs g = w.attrs g
      unfold setattr
      simp [h]
    · rfl
  · rw [if_neg hmem]

lemma applyField_attrs_set {α : Type} (w : Video α) (p : String × α)
    (hmem : p.1 ∈ w.fields) (ha : w.attrs p.1 = none) :
    (applyField w p).attrs p.1 = some p.2 := by
  unfold applyField
  rw [if_pos hmem, ha]
  show (setattr w p.1 p.2).attrs p.1 = some p.2
  unfold setattr
  simp

lemma applyField_attrs_keep {α : Type} (w : Video α) (p : String × α)
    (h : ¬ (p.1 ∈ w.fields ∧ w.attrs p.1 = none)) :
    (applyField w p).attrs p.1 = w.attrs p.1 := by
  unfold applyField
  by_cases hmem : p.1 ∈ w.fields
  · rw [if_pos hmem]
    cases ha : w.attrs p.1
    · exact absurd ⟨hmem, ha⟩ h
    · exact ha
  · rw [if_neg hmem]

lemma apply_video_data_attrs_not_mem {α : Type} (v : Video α)
    (data : List (String × α)) (f : String) (h : f ∉ data.map Prod.fst) :
    (apply_video_data v data).attrs f = v.attrs f := by
  induction data generalizing v with
  | nil => rfl
  | cons p rest ih =>
      have hne : f ≠ p.1 := by
        intro hh
        exact h (by rw [hh]; exact List.mem_cons_self _ _)
      have hrest : f ∉ rest.map Prod.fst := by
        intro hh
        exact h (List.mem_cons_of_mem _ hh)
      show (apply_video_data (applyField v p) rest).attrs f = v.attrs f
      rw [ih (applyField v p) hrest, applyField_attrs_ne v p f hne]

/-- C3: `apply_video_data` sets an attribute to a supplied value exactly when
the field is requested and currently unset; an already-set attribute is never
changed, a field outside the requested list is never stored, and attributes
not mentioned by the data are untouched. -/
theorem c3_apply_video_data_first_writer_wins {α : Type} (v : Video α)
    (data : List (String × α)) (hnd : (data.map Prod.fst).Nodup) :
    (∀ f x, (f, x) ∈ data →
        ((f ∈ v.fields ∧ v.attrs f = none) →
            (apply_video_data v data).attrs f = some x)
        ∧ (¬ (f ∈ v.fields ∧ v.attrs f = none) →
            (apply_video_data v data).attrs f = v.attrs f))
    ∧ (∀ f, f ∉ data.map Prod.fst →
        (apply_video_data v data).attrs f = v.attrs f) := by
  refine ⟨?_, fun f hf => apply_video_data_attrs_not_mem v data f hf⟩
  induction data generalizing v with
  | nil =>
      intro f x hfx
      exact absurd hfx (List.not_mem_nil _)
  | cons p rest ih =>
      intro f x hfx
      have hnodup_rest : (rest.map Prod.fst).Nodup := (List.nodup_cons.mp hnd).2
      have hhead : p.1 ∉ rest.map Prod.fst := (List.nodup_cons.mp hnd).1
      rcases List.mem_cons.mp hfx with heq | hmem
      · subst heq
        have hbase :
            (apply_video_data v ((f, x) :: rest)).attrs f =
              (applyField v (f, x)).attrs f := by
          show (apply_video_data (applyField v (f, x)) rest).attrs f = _
          exact apply_video_data_attrs_not_mem _ rest f hhead
        constructor
        · intro hcond
          rw [hbase]
          exact applyField_attrs_set v (f, x) hcond.1 hcond.2
        · intro hcond
          rw [hbase]
          exact applyField_attrs_keep v (f, x) hcond
      · have hfmem : f ∈ rest.map Prod.fst :=
          List.mem_map.mpr ⟨(f, x), hmem, rfl⟩
        have hne : f ≠ p.1 := by
          intro hh
          rw [hh] at hfmem
          exact hhead hfmem
        have hstep := ih (applyField v p) hnodup_rest f x hmem
        rw [applyField_fields, applyField_attrs_ne v p f hne] at hstep
        exact hstep

/-- C3 witness at concrete inputs. -/
theorem c3_witness :
    (∀ f x, (f, x) ∈ dataEx →
        ((f ∈ vEx.fields ∧ vEx.attrs f = none) →
            (apply_video_data vEx dataEx).attrs f = some x)
        ∧ (¬ (f ∈ vEx.fields ∧ vEx.attrs f = none) →
            (apply_video_data vEx dataEx).attrs f = vEx.attrs f))
    ∧ (∀ f, f ∉ dataEx.map Prod.fst →
        (apply_video_data vEx dataEx).attrs f = vEx.attrs f) :=
  c3_apply_video_data_first_writer_wins vEx dataEx (by decide)

/-! ## Facts about `load_video_data` -/

lemma load_video_data_snd {α : Type} (s : Suite)
    (net : Strategy → List (String × α)) (v : Video α) :
    (load_video_data s net v).2 =
      if missingSet v = ∅ then none
      else selectLoop s (missingSet v) combos [] := by
  unfold load_video_data
  by_cases h : missingSet v = ∅
  · simp [h]
  · rw [if_neg h, if_neg h]
    cases hsel : selectLoop s (missingSet v) combos [] <;> simp [hsel]

/-- C1: for a non-empty missing-field set, `load_video_data` executes exactly
the combination that `specChoice` describes: minimal remaining-uncovered
count among the seven combinations that strictly reduce the missing count,
ties broken by the fixed priority order of `combos`; an exact fit is the
first zero-remaining combination in that order; and nothing is executed when
no combination strictly reduces the missing count. -/
theorem c1_load_video_data_minimal_combination {α : Type} (s : Suite)
    (net : Strategy → List (String × α)) (v : Video α)
    (hne : (missingSet v).Nonempty) :
    (load_video_data s net v).2 = specChoice s (missingSet v)
    ∧ ((∃ c ∈ combos, remainingCount s (missingSet v) c = 0) →
        (load_video_data s net v).2 =
          combos.find? fun c => decide (remainingCount s (missingSet v) c = 0))
    ∧ ((∀ c ∈ combos, ¬ remainingCount s (missingSet v) c < (missingSet v).card) →
        (load_video_data s net v).2 = none) := by
  have hm : 0 < (missingSet v).card := Finset.card_pos.mpr hne
  have hmain : (load_video_data s net v).2 = specChoice s (missingSet v) := by
    rw [load_video_data_snd, if_neg (by
      intro hh
      rw [hh] at hne
      exact Finset.not_nonempty_empty hne)]
    rw [selectLoop_eq_chooseOn s (missingSet v) hm combos [] []
      (by intro i _; rfl) (by intro c hc; exact absurd hc (List.not_mem_nil c))]
    rfl
  refine ⟨hmain, ?_, ?_⟩
  · rintro ⟨c, hc, h0⟩
    rw [hmain]
    unfold specChoice
    exact chooseOn_min _ _ 0 _ hm c hc h0 (by intro x _ _; omega)
  · intro hnone
    rw [hmain]
    unfold specChoice chooseOn
    rw [List.filter_eq_nil_iff.mpr (by
      intro x hx
      simpa using hnone x hx)]
    rfl

/-- C1 witness at concrete inputs (`sEx` supplies `title` via oembed and
`description` via the API; both are missing). -/
theorem c1_witness :
    (load_video_data sEx netEx vEx).2 = specChoice sEx (missingSet vEx)
    ∧ ((∃ c ∈ combos, remainingCount sEx (missingSet vEx) c = 0) →
        (load_video_data sEx netEx vEx).2 =
          combos.find? fun c => decide (remainingCount sEx (missingSet vEx) c = 0))
    ∧ ((∀ c ∈ combos,
          ¬ remainingCount sEx (missingSet vEx) c < (missingSet vEx).card) →
        (load_video_data sEx netEx vEx).2 = none) :=
  c1_load_video_data_minimal_combination sEx netEx vEx ⟨"title", by decide⟩

/-- C4: with nothing missing, `load_video_data` returns at once — no method
is run (hence zero fetches) and the record is unchanged — and a second
`load` after a completed one is a no-op. -/
theorem c4_load_idempotent {α : Type} (s : Suite)
    (net : Strategy → List (String × α)) (v : Video α)
    (h : missing_fields v = []) (vs : VideoState α) :
    load_video_data s net v = (v, none)
    ∧ load s net (load s net vs).1 = ((load s net vs).1, none) := by
  constructor
  · unfold load_video_data
    rw [if_pos (by rw [missingSet, h]; rfl)]
  · unfold load
    by_cases hl : vs.loaded
    · simp [hl]
    · simp [hl]

/-- C4 witness at concrete inputs. -/
theorem c4_witness :
    load_video_data sEx netEx vDone = (vDone, none)
    ∧ load sEx netEx (load sEx netEx vsEx).1 = ((load sEx netEx vsEx).1, none) :=
  c4_load_idempotent sEx netEx vDone rfl vsEx

/-! ## Registry lookups -/

/-- C7: `suite_for_video_url` returns the first registered suite whose video
classifier claims the url, suites whose classifier raises
`NotImplementedError` being skipped, and reports `CantIdentifyUrl` (`none`)
exactly when no registered suite claims the url.  No fetch operation exists
on this path. -/
theorem c7_suite_for_video_url_first_claim (suites : List Suite)
    (url : String) :
    suite_for_video_url suites url = suites.find? (fun s => claimsVideo s url)
    ∧ (suite_for_video_url suites url = none ↔
        ∀ s ∈ suites, claimsVideo s url = false) := by
  have hmain : suite_for_video_url suites url =
      suites.find? fun s => claimsVideo s url := by
    induction suites with
    | nil => rfl
    | cons s rest ih =>
        show (match handles_video_url s url with
              | .ok true => some s
              | .ok false => suite_for_video_url rest url
              | .error _ => suite_for_video_url rest url) = _
        cases hh : handles_video_url s url with
        | ok b =>
            cases b
            · rw [List.find?_cons_of_neg _ (by simp [claimsVideo, hh])]
              exact ih
            · rw [List.find?_cons_of_pos _ (by simp [claimsVideo, hh])]
        | error e =>
            rw [List.find?_cons_of_neg _ (by simp [claimsVideo, hh])]
            exact ih
  refine ⟨hmain, ?_⟩
  rw [hmain, List.find?_eq_none]
  simp

/-- C7 witness at concrete inputs. -/
theorem c7_witness :
    suite_for_video_url [sFeedOnly, sVid] "http://v" =
      [sFeedOnly, sVid].find? (fun s => claimsVideo s "http://v")
    ∧ (suite_for_video_url [sFeedOnly, sVid] "http://v" = none ↔
        ∀ s ∈ [sFeedOnly, sVid], claimsVideo s "http://v" = false) :=
  c7_suite_for_video_url_first_claim [sFeedOnly, sVid] "http://v"

/-- C6: the source's `handles_feed_url` tests `video_regex`, not the feed
regex its docstring and the spec describe.  For a suite whose feed regex
matches the url but whose `video_regex` is `None`, `handles_feed_url` raises
`NotImplementedError` (while the docstring's behaviour would claim the url),
so `suite_for_feed_url` skips the suite and raises `CantIdentifyUrl`. -/
theorem c6_feed_classifier_video_regex_bug :
    handles_feed_url sFeedOnly "http://feed.example/" =
      .error .notImplementedError
    ∧ handles_feed_url_spec sFeedOnly "http://feed.example/" = .ok true
    ∧ suite_for_feed_url [sFeedOnly] "http://feed.example/" = none :=
  ⟨rfl, rfl, rfl⟩

/-! ## `ScrapedFeed` construction -/

/-- C9 (amended): whenever the suite-resolution step of
`ScrapedFeed.__init__` succeeds, construction raises `AttributeError` — the
assignment to the getter-only property `max_results` — before any network
activity. -/
theorem c9_feed_init_attribute_error (suites : List Suite)
    (suiteArg : Option Suite) (url : String)
    (h : ∃ s0, resolveFeedSuite suites suiteArg url = .ok s0) :
    scrapedFeedInit suites suiteArg url = .error .attributeError := by
  obtain ⟨s0, hs⟩ := h
  simp only [scrapedFeedInit, hs]
  rfl

/-- C9 witness: a suite whose (video) regex matches, so resolution succeeds
and construction fails on the `max_results` assignment. -/
theorem c9_witness :
    scrapedFeedInit [] (some sVid) "u" = .error .attributeError :=
  c9_feed_init_attribute_error [] (some sVid) "u" ⟨sVid, rfl⟩

/-- C9 counterexample to the claim as stated: with no suite passed and no
registered suite claiming the url, `ScrapedFeed.__init__` raises
`CantIdentifyUrl` — not `AttributeError`. -/
theorem c9_counterexample :
    scrapedFeedInit [] none "u" = .error .cantIdentifyUrl
    ∧ scrapedFeedInit [] none "u" ≠ .error .attributeError := by
  refine ⟨rfl, ?_⟩
  intro hcontra
  rw [show scrapedFeedInit [] none "u" = Except.error PyErr.cantIdentifyUrl
    from rfl] at hcontra
  injection hcontra with h2
  exact PyErr.noConfusion h2

/-! ## Facts about the pagination loop -/

lemma emitItems_cons {Item V Meta : Type} (env : IterEnv Item V Meta)
    (it : Item) (rest : List Item) (count : Nat) :
    emitItems env (it :: rest) count =
      match env.materialize it with
      | .error e => ([], count, .raised e)
      | .ok v =>
          match env.max_results with
          | none =>
              match emitItems env rest count with
              | (vs, c, ex) => (v :: vs, c, ex)
          | some n =>
              if n ≤ count + 1 then ([v], count + 1, .capBreak)
              else
                match emitItems env rest (count + 1) with
                | (vs, c, ex) => (v :: vs, c, ex) := rfl

lemma whileCond_ok_true {mr : Option Nat} (h : whileCond mr = .ok true) :
    mr = none := by
  cases mr with
  | none => rfl
  | some n => exact Except.noConfusion h

lemma emitItems_exit_of_max_none {Item V Meta : Type} (env : IterEnv Item V Meta)
    (hmax : env.max_results = none) :
    ∀ (items : List Item) (count : Nat),
      (emitItems env items count).2.2 ≠ ForExit.capBreak := by
  intro items
  induction items with
  | nil =>
      intro count hcontra
      exact ForExit.noConfusion hcontra
  | cons it rest ih =>
      intro count
      rw [emitItems_cons]
      cases hm : env.materialize it with
      | error e => simp
      | ok v =>
          rw [hmax]
          rcases hrec : emitItems env rest count with ⟨vs, c, ex⟩
          have hne := ih count
          rw [hrec] at hne
          simpa using hne

lemma emitItems_completed_of_ok {Item V Meta : Type} (env : IterEnv Item V Meta)
    (hmax : env.max_results = none) :
    ∀ (items : List Item) (count : Nat),
      (∀ it ∈ items, (env.materialize it).isOk = true) →
      (emitItems env items count).2.2 = ForExit.completed := by
  intro items
  induction items with
  | nil => intro count _; rfl
  | cons it rest ih =>
      intro count hok
      rw [emitItems_cons]
      cases hm : env.materialize it with
      | error e =>
          have hko := hok it (List.mem_cons_self _ _)
          rw [hm] at hko
          exact Bool.noConfusion hko
      | ok v =>
          rw [hmax]
          rcases hrec : emitItems env rest count with ⟨vs, c, ex⟩
          have hco := ih count fun x hx => hok x (List.mem_cons_of_mem _ hx)
          rw [hrec] at hco
          simpa using hco

lemma iterPages_succ {Item V Meta : Type} (env : IterEnv Item V Meta)
    (fuel url count : Nat) (firstFetched : Bool) (meta : Option Meta) :
    iterPages env (fuel + 1) url count firstFetched meta =
      match whileCond env.max_results with
      | .error e => ⟨[], [], [], meta, .raised e⟩
      | .ok false => ⟨[], [], [], meta, .finished⟩
      | .ok true =>
          match emitItems env (env.page url).items count with
          | (vs, _, .raised e) =>
              ⟨[url], vs, metaEvOf firstFetched url,
                meta2Of env.page firstFetched url meta,
                if e = .notImplementedError then .finished else .raised e⟩
          | (vs, count2, .capBreak) =>
              match whileCond env.max_results with
              | .error e =>
                  ⟨[url], vs, metaEvOf firstFetched url,
                    meta2Of env.page firstFetched url meta, .raised e⟩
              | .ok false =>
                  ⟨[url], vs, metaEvOf firstFetched url,
                    meta2Of env.page firstFetched url meta, .finished⟩
              | .ok true =>
                  contTrace url vs (metaEvOf firstFetched url)
                    (iterPages env fuel url count2 true
                      (meta2Of env.page firstFetched url meta))
          | (vs, count2, .completed) =>
              match (if env.crawl && !(env.page url).items.isEmpty
                  then (env.page url).nextUrl else none) with
              | none =>
                  ⟨[url], vs, metaEvOf firstFetched url,
                    meta2Of env.page firstFetched url meta, .finished⟩
              | some u =>
                  contTrace url vs (metaEvOf firstFetched url)
                    (iterPages env fuel u count2 true
                      (meta2Of env.page firstFetched url meta)) := rfl

lemma iterPages_succ_none {Item V Meta : Type} (env : IterEnv Item V Meta)
    (hmax : env.max_results = none) (fuel url count : Nat)
    (firstFetched : Bool) (meta : Option Meta) :
    iterPages env (fuel + 1) url count firstFetched meta =
      match emitItems env (env.page url).items count with
      | (vs, _, .raised e) =>
          ⟨[url], vs, metaEvOf firstFetched url,
            meta2Of env.page firstFetched url meta,
            if e = .notImplementedError then .finished else .raised e⟩
      | (vs, count2, .capBreak) =>
          contTrace url vs (metaEvOf firstFetched url)
            (iterPages env fuel url count2 true
              (meta2Of env.page firstFetched url meta))
      | (vs, count2, .completed) =>
          match (if env.crawl && !(env.page url).items.isEmpty
              then (env.page url).nextUrl else none) with
          | none =>
              ⟨[url], vs, metaEvOf firstFetched url,
                meta2Of env.page firstFetched url meta, .finished⟩
          | some u =>
              contTrace url vs (metaEvOf firstFetched url)
                (iterPages env fuel u count2 true
                  (meta2Of env.page firstFetched url meta)) := by
  rw [iterPages_succ, hmax]
  rfl

lemma iterPages_fetched_cons {Item V Meta : Type} (env : IterEnv Item V Meta)
    (hmax : env.max_results = none) (fuel url count : Nat)
    (firstFetched : Bool) (meta : Option Meta) :
    ∃ rest, (iterPages env (fuel + 1) url count firstFetched meta).fetched =
      url :: rest := by
  rw [iterPages_succ_none env hmax]
  rcases hemit : emitItems env (env.page url).items count with ⟨vs, count2, ex⟩
  cases ex with
  | raised e => exact ⟨[], rfl⟩
  | capBreak =>
      exact ⟨(iterPages env fuel url count2 true
        (meta2Of env.page firstFetched url meta)).fetched, rfl⟩
  | completed =>
      cases hnext : (if env.crawl && !(env.page url).items.isEmpty
          then (env.page url).nextUrl else none) with
      | none => exact ⟨[], rfl⟩
      | some u =>
          exact ⟨(iterPages env fuel u count2 true
            (meta2Of env.page firstFetched url meta)).fetched, rfl⟩

lemma iterPages_crawl_false {Item V Meta : Type} (env : IterEnv Item V Meta)
    (hcrawl : env.crawl = false) :
    ∀ (fuel url count : Nat) (firstFetched : Bool) (meta : Option Meta),
      (iterPages env fuel url count firstFetched meta).fetched.length ≤ 1 := by
  intro fuel
  induction fuel with
  | zero =>
      intro url count ff meta
      show ([] : List Nat).length ≤ 1
      simp
  | succ fuel ih =>
      intro url count ff meta
      rw [iterPages_succ]
      cases hw : whileCond env.max_results with
      | error e => simp
      | ok b =>
          cases b
          · simp
          · have hmax : env.max_results = none := whileCond_ok_true hw
            rcases hemit : emitItems env (env.page url).items count
              with ⟨vs, count2, ex⟩
            cases ex with
            | raised e => simp
            | capBreak =>
                have hne := emitItems_exit_of_max_none env hmax
                  (env.page url).items count
                rw [hemit] at hne
                exact absurd rfl hne
            | completed =>
                rw [hcrawl]
                simp

lemma iterate_fetched_nil_of_some {Item V Meta : Type}
    (env : IterEnv Item V Meta) (n : Nat) (hmax : env.max_results = some n)
    (fuel : Nat) : (iterate env fuel).fetched = [] := by
  cases fuel with
  | zero => rfl
  | succ k =>
      unfold iterate
      rw [iterPages_succ, hmax]
      rfl

/-- C2: with `max_results` set, the loop condition reads the undefined name
`result_count` and iteration raises `NameError` before any page is fetched or
any record emitted — instead of emitting `min(N, total available)` records as
the claim (and the intended `item_count` counter) describes. -/
theorem c2_cap_raises_name_error {Item V Meta : Type}
    (env : IterEnv Item V Meta) (n : Nat) (hmax : env.max_results = some n)
    (fuel : Nat) (hfuel : 1 ≤ fuel) :
    iterate env fuel = ⟨[], [], [], none, .raised .nameError⟩ := by
  obtain ⟨k, rfl⟩ : ∃ k, fuel = k + 1 := ⟨fuel - 1, by omega⟩
  unfold iterate
  rw [iterPages_succ, hmax]
  rfl

/-- C2 witness: a capped iterator over non-empty pages raises `NameError`
immediately. -/
theorem c2_witness :
    iterate envCap 1 = ⟨[], [], [], none, .raised .nameError⟩ :=
  c2_cap_raises_name_error envCap 1 rfl 1 (by omega)

/-- C5: after a page's items have been emitted without hitting the cap, a
further page is fetched iff `crawl` is enabled, the page was non-empty, and
the suite returns a next-page url; a crawl-disabled iterator never fetches
more than one page; an empty page terminates the iteration even when `crawl`
is enabled and a next-page url would be computable. -/
theorem c5_crawl_continuation {Item V Meta : Type} (env : IterEnv Item V Meta)
    (hmax : env.max_results = none) :
    (∀ (fuel url count : Nat) (firstFetched : Bool) (meta : Option Meta),
        (∀ it ∈ (env.page url).items, (env.materialize it).isOk = true) →
        (2 ≤ (iterPages env (fuel + 2) url count firstFetched meta).fetched.length ↔
          env.crawl = true ∧ (env.page url).items ≠ [] ∧
            (env.page url).nextUrl ≠ none))
    ∧ (env.crawl = false →
        ∀ fuel, (iterate env fuel).fetched.length ≤ 1)
    ∧ (∀ (fuel url count : Nat) (firstFetched : Bool) (meta : Option Meta),
        (env.page url).items = [] →
        (iterPages env (fuel + 1) url count firstFetched meta).fetched = [url]) := by
  refine ⟨?_, ?_, ?_⟩
  · intro fuel url count firstFetched meta hok
    rw [show fuel + 2 = (fuel + 1) + 1 from rfl,
      iterPages_succ_none env hmax (fuel + 1) url count firstFetched meta]
    rcases hemit : emitItems env (env.page url).items count with ⟨vs, count2, ex⟩
    have hco := emitItems_completed_of_ok env hmax (env.page url).items count hok
    rw [hemit] at hco
    simp only at hco
    subst hco
    cases hcrawl : env.crawl with
    | false => simp [hcrawl]
    | true =>
        cases hitems : (env.page url).items with
        | nil => simp [hitems]
        | cons it its =>
            cases hnu : (env.page url).nextUrl with
            | none => simp [hitems, hnu]
            | some u =>
                obtain ⟨rest, hr⟩ := iterPages_fetched_cons env hmax fuel u
                  count2 true (meta2Of env.page firstFetched url meta)
                simp [hitems, hnu, contTrace, hr]
  · intro hcrawl fuel
    exact iterPages_crawl_false env hcrawl fuel env.firstUrl 0 false none
  · intro fuel url count firstFetched meta hempty
    rw [iterPages_succ_none env hmax, hempty]
    simp [emitItems]

/-- C5 witness at a concrete crawling iterator. -/
theorem c5_witness :
    (∀ (fuel url count : Nat) (firstFetched : Bool) (meta : Option Nat),
        (∀ it ∈ (envOk.page url).items, (envOk.materialize it).isOk = true) →
        (2 ≤ (iterPages envOk (fuel + 2) url count firstFetched meta).fetched.length ↔
          envOk.crawl = true ∧ (envOk.page url).items ≠ [] ∧
            (envOk.page url).nextUrl ≠ none))
    ∧ (envOk.crawl = false →
        ∀ fuel, (iterate envOk fuel).fetched.length ≤ 1)
    ∧ (∀ (fuel url count : Nat) (firstFetched : Bool) (meta : Option Nat),
        (envOk.page url).items = [] →
        (iterPages envOk (fuel + 1) url count firstFetched meta).fetched = [url]) :=
  c5_crawl_continuation envOk rfl

lemma iterPages_meta_of_first {Item V Meta : Type} (env : IterEnv Item V Meta) :
    ∀ (fuel url count : Nat) (m0 : Meta),
      (iterPages env fuel url count true (some m0)).metaEvents = []
      ∧ (iterPages env fuel url count true (some m0)).finalMeta = some m0 := by
  intro fuel
  induction fuel with
  | zero =>
      intro url count m0
      exact ⟨rfl, rfl⟩
  | succ fuel ih =>
      intro url count m0
      rw [iterPages_succ]
      cases hw : whileCond env.max_results with
      | error e => exact ⟨rfl, rfl⟩
      | ok b =>
          cases b
          · exact ⟨rfl, rfl⟩
          · rcases hemit : emitItems env (env.page url).items count
              with ⟨vs, count2, ex⟩
            cases ex with
            | raised e => exact ⟨rfl, rfl⟩
            | capBreak =>
                obtain ⟨h1, h2⟩ := ih url count2 m0
                simp [contTrace, metaEvOf, meta2Of, h1, h2]
            | completed =>
                cases hnext : (if env.crawl && !(env.page url).items.isEmpty
                    then (env.page url).nextUrl else none) with
                | none => exact ⟨rfl, rfl⟩
                | some u =>
                    obtain ⟨h1, h2⟩ := ih u count2 m0
                    simp [contTrace, metaEvOf, meta2Of, h1, h2]

/-- C8: the side-channel metadata is extracted exactly once, from the first
page's response only (`handle_first_response` runs for the first fetched page
and for no other), and the metadata attributes hold the first page's values
from then on, whatever happens on later pages. -/
theorem c8_meta_extracted_once {Item V Meta : Type} (env : IterEnv Item V Meta)
    (hmax : env.max_results = none) (fuel : Nat) (hfuel : 1 ≤ fuel) :
    (iterate env fuel).metaEvents = [env.firstUrl]
    ∧ (iterate env fuel).finalMeta = some (env.page env.firstUrl).meta := by
  obtain ⟨k, rfl⟩ : ∃ k, fuel = k + 1 := ⟨fuel - 1, by omega⟩
  unfold iterate
  rw [iterPages_succ_none env hmax]
  rcases hemit : emitItems env (env.page env.firstUrl).items 0
    with ⟨vs, count2, ex⟩
  cases ex with
  | raised e => exact ⟨rfl, rfl⟩
  | capBreak =>
      obtain ⟨h1, h2⟩ := iterPages_meta_of_first env k env.firstUrl count2
        (env.page env.firstUrl).meta
      simp [contTrace, metaEvOf, meta2Of, h1, h2]
  | completed =>
      cases hnext : (if env.crawl && !(env.page env.firstUrl).items.isEmpty
          then (env.page env.firstUrl).nextUrl else none) with
      | none => exact ⟨rfl, rfl⟩
      | some u =>
          obtain ⟨h1, h2⟩ := iterPages_meta_of_first env k u count2
            (env.page env.firstUrl).meta
          simp [contTrace, metaEvOf, meta2Of, h1, h2]

/-- C8 witness at a concrete crawling iterator. -/
theorem c8_witness :
    (iterate envOk 3).metaEvents = [envOk.firstUrl]
    ∧ (iterate envOk 3).finalMeta = some (envOk.page envOk.firstUrl).meta :=
  c8_meta_extracted_once envOk rfl 3 (by omega)

/-- C10: when a page is actually fetched and holds at least one item,
materialising its first item calls `BaseSuite.get_video`, which forwards the
keyword `api_key` to `ScrapedVideo.__init__` (whose parameters are `url`,
`suite`, `fields`, `api_keys`); the call raises `TypeError`, which the
iterator's `NotImplementedError` handler does not catch, so the iteration
propagates `TypeError` before yielding any record. -/
theorem c10_get_video_type_error {Item V Meta : Type}
    (env : IterEnv Item V Meta)
    (getItemData : Item → List (String × String)) (construct : Item → V)
    (hmat : env.materialize = get_video_materialize getItemData construct)
    (fuel : Nat)
    (hfetch : (iterate env fuel).fetched ≠ [])
    (hitems : (env.page env.firstUrl).items ≠ []) :
    (iterate env fuel).emitted = []
    ∧ (iterate env fuel).stop = .raised .typeError := by
  have hmax : env.max_results = none := by
    cases hmr : env.max_results with
    | none => rfl
    | some n => exact absurd (iterate_fetched_nil_of_some env n hmr fuel) hfetch
  obtain ⟨k, rfl⟩ : ∃ k, fuel = k + 1 := by
    cases fuel with
    | zero => exact absurd rfl hfetch
    | succ k => exact ⟨k, rfl⟩
  unfold iterate
  rw [iterPages_succ_none env hmax]
  cases hitems2 : (env.page env.firstUrl).items with
  | nil => exact absurd hitems2 hitems
  | cons it its =>
      rw [emitItems_cons, hmat]
      rw [show get_video_materialize getItemData construct it =
        Except.error PyErr.typeError from rfl]
      exact ⟨rfl, rfl⟩

/-- C10 witness: the concrete iterator whose materialiser is the real
`get_video` call chain. -/
theorem c10_witness :
    (iterate envGetVideo 1).emitted = []
    ∧ (iterate envGetVideo 1).stop = .raised .typeError :=
  c10_get_video_type_error envGetVideo (fun _ => []) (fun i => i) rfl 1
    (by decide) (by decide)

end Vidscraper
